import Mathlib

/-!
Verification development for the `cga` windowed document-scanning engine and
its call-graph specialization.

The definitions below are a shallow embedding of the Python sources:
  * `src/cga/utils/fs.py`        — line-range utilities and the windowed read
  * `src/cga/agents/doc/doc_agent.py` — the document scan engine (`DocAgent`)
  * `src/cga/agents/callgraph/callgraph_agent.py` — the call-graph pass
Machine-level details kept: Python's negative list indexing, the exact
mutation order of the scan loop (including the `next_more_from` local that can
be read before ever being assigned), truthiness tests, and the per-response
action dispatch.  The external oracle is modelled as a trace: a function from
the call number to the list of structured actions parsed from that response.
Field values carried by oracle actions are modelled as integers: only the
integer-valued line fields (`start_line`, `end_line`, `start`, `end`,
`file_line`) ever influence the engine's control flow or the properties
below; string-valued payload fields pass through `data` unused.
-/

namespace CGA

/-! ## Line-range utilities (`src/cga/utils/fs.py`) -/

/-- Python `range(a, b)` as a list of `Int`. -/
def intRange (a b : Int) : List Int :=
  (List.range (b - a).toNat).map (fun (k : Nat) => a + (k : Int))

/-- Python list indexing `lines[i]`: non-negative indices from the front,
negative indices from the back, `none` when the index is out of range
(an `IndexError`). -/
def pyIndex (lines : List String) (i : Int) : Option String :=
  if 0 ≤ i ∧ i < (lines.length : Int) then lines.get? i.toNat
  else if -(lines.length : Int) ≤ i ∧ i < 0 then lines.get? (i + lines.length).toNat
  else none

/-- The comprehension `[(i+1, lines[i]) for i in indices]`; `none` as soon as
one index raises. -/
def selectLines (lines : List String) : List Int → Option (List (Int × String))
  | [] => some []
  | i :: is =>
    match pyIndex lines i, selectLines lines is with
    | some c, some rest => some ((i + 1, c) :: rest)
    | _, _ => none

/-- Insertion into a sorted list, ascending. -/
def insertSorted (x : Int) : List Int → List Int
  | [] => [x]
  | y :: ys => if x ≤ y then x :: y :: ys else y :: insertSorted x ys

/-- `sorted(set(l))`: ascending, duplicates removed. -/
def sortedSet (l : List Int) : List Int :=
  (l.foldr insertSorted []).dedup

/-- One token of an omitted-lines spec: either a single integer or an
inclusive `a-b` range (`ValueError` on anything else → `none`). -/
def parseToken (r : String) : Option (List Int) :=
  if r.contains '-' then
    match r.splitOn "-" with
    | [a, b] =>
      match a.toInt?, b.toInt? with
      | some x, some y => some (intRange x (y + 1))
      | _, _ => none
    | _ => none
  else (r.toInt?).map (fun v => [v])

/-- `parse_omitted_lines`: comma-separated tokens into the set of omitted
line numbers (represented as a sorted duplicate-free list). -/
def parse_omitted_lines (s : String) : Option (List Int) :=
  if s = "" then some [] else
    match (s.splitOn ",").mapM parseToken with
    | some ls => some (sortedSet ls.flatten)
    | none => none

/-- The range-building fold of `omit_lines` (lines 81–90 of `fs.py`):
maximal contiguous runs of the sorted omitted numbers. -/
def buildRanges (s e : Int) : List Int → List (Int × Int)
  | [] => [(s, e)]
  | l :: ls => if l = e + 1 then buildRanges s l ls else (s, e) :: buildRanges l l ls

/-- Marker entry text for one omitted run. -/
def markerText (r : Int × Int) : String :=
  if r.1 = r.2 then "[omitted lines: " ++ toString r.1 ++ "]"
  else "[omitted lines: " ++ toString r.1 ++ "-" ++ toString r.2 ++ "]"

/-- The `while i < len(lines)` loop of `omit_lines`: walk the entries with a
cursor over the omitted runs.  The cursor advances past the current run only
upon meeting an entry whose line number equals the run's final number; the
marker entry is emitted at that same moment. -/
def omitLoop : List (Int × String) → List (Int × Int) → List (Int × String)
  | [], _ => []
  | (n, c) :: rest, [] => (n, c) :: omitLoop rest []
  | (n, c) :: rest, (rs, re) :: rranges =>
    if rs ≤ n ∧ n ≤ re then
      if n = re then (-1, markerText (rs, re)) :: omitLoop rest rranges
      else omitLoop rest ((rs, re) :: rranges)
    else (n, c) :: omitLoop rest ((rs, re) :: rranges)

/-- `omit_lines(lines, omitted_lines)`. -/
def omit_lines (lines : List (Int × String)) (omitted : List Int) : List (Int × String) :=
  match sortedSet omitted with
  | [] => lines
  | o :: os => omitLoop lines (buildRanges o o os)

/-- A failed windowed read (`ValueError`): it carries the offending bounds
and the document's line count. -/
structure ReadErr where
  startLine : Int
  endLine : Int
  docLines : Nat

/-- Render one selected entry, with line numbers (`-1` marks an omitted-run
marker entry, printed bare). -/
def renderEntry (p : Int × String) : String :=
  if p.1 = -1 then p.2 else toString p.1 ++ ": " ++ p.2

/-- `CachedLocalFileSystem.read_file_with_lines` over an already-split
document: select `range(start_line-1, end_line)`, optionally apply the
omitted-lines compression, then join (with or without line numbers). -/
def read_file_with_lines (doc : List String) (s e : Int)
    (withLinenum : Bool) (omitted : String) : Except ReadErr String :=
  match selectLines doc (intRange (s - 1) e) with
  | none => .error ⟨s, e, doc.length⟩
  | some sel =>
    match (if omitted = "" then some sel else
      match parse_omitted_lines omitted with
      | some om => some (omit_lines sel om)
      | none => none) with
    | none => .error ⟨s, e, doc.length⟩
    | some sel2 =>
      if withLinenum then .ok (String.intercalate "\n" (sel2.map renderEntry))
      else .ok (String.intercalate "\n" (sel2.map Prod.snd))

/-! ## Directory listing (`CachedLocalFileSystem.list_files`) -/

/-- The directory-shaped part of the OS filesystem that `list_files`
consults: `os.path.isdir`, `os.listdir`, `os.path.isfile`. -/
structure FileSys where
  isdir : String → Bool
  entriesOf : String → List String
  isfile : String → Bool

/-- `_is_in_white_list`: an empty white list admits everything; otherwise a
path must start with one of the white-listed prefixes. -/
def isInWhiteList (wl : List String) (p : String) : Bool :=
  if wl.isEmpty then true else wl.any (fun w => p.startsWith w)

/-- `os.path.join(directory, f)` for the absolute directories at hand. -/
def joinPath (d f : String) : String := d ++ "/" ++ f

/-- `list_files`: a non-directory path is returned as a singleton untouched;
a directory is listed, keeping plain files that pass the white list. -/
def list_files (fs : FileSys) (wl : List String) (abspath : String → String)
    (directory : String) : List String :=
  let d := abspath directory
  if fs.isdir d then
    ((fs.entriesOf d).map (joinPath d)).filter
      (fun p => fs.isfile p && isInWhiteList wl p)
  else [d]

/-! ## The document scan engine (`src/cga/agents/doc/doc_agent.py`) -/

/-- Oracle action fields (`found_target(**kwargs)`): a finite map from field
name to integer value. -/
abbrev Fields := List (String × Int)

/-- A discovered `Result`: target id, extracted data, nested child results. -/
inductive Result where
  | mk (target_id : String) (data : Fields) (children : List Result)

def Result.target_id : Result → String
  | .mk i _ _ => i

def Result.rdata : Result → Fields
  | .mk _ d _ => d

def Result.children : Result → List Result
  | .mk _ _ c => c

/-- Append a list of results to a result's children. -/
def Result.addChildren (rs : List Result) : Result → Result
  | .mk i d c => .mk i d (c ++ rs)

/-- A `Target` definition: id, optional field-mapping transform, nested child
target definitions (`children = []` plays Python's `None`). -/
structure Target where
  id : String
  map_fn : Option (Fields → Fields)
  children : List Target

/-- One structured action parsed from an oracle response. -/
inductive OAction where
  | found_target (fields : Fields)
  | retry_with (s e : Int) (omitted : String)
  | other (name : String)

/-- The action's `name` field, used for the retry test in the loop. -/
def OAction.aname : OAction → String
  | .found_target _ => "found_target"
  | .retry_with _ _ _ => "retry_with"
  | .other n => n

/-- An oracle trace: the structured actions parsed from the i-th LLM call of
the run. -/
abbrev Oracle := Nat → List OAction

/-- The `DocAgent` instance state relevant to one run, plus the document and
an instrumentation trace of the windows actually read (one oracle call per
entry, so `trace.length` counts the oracle calls and `oidx` indexes the next
response). -/
structure Scan where
  doc : List String
  startLine : Int
  endLine : Int
  omitted : String
  startLimit : Int
  endLimit : Int
  blacked : List (Int × Int)
  found : List Result
  currentParent : Option Nat
  sameLevelOverlap : Bool
  oidx : Nat
  trace : List (Int × Int)

/-- Failure modes of a scan run.  `nameErr` is the Python `NameError` on
`next_more_from` when the whole-window-blacked branch is reached before the
adjustment block has ever run (flag set, or blacked list still empty). -/
inductive ScanErrKind where
  | outOfFuel
  | nameErr
  | unknownAct (name : String)
  | readErr (e : ReadErr)

/-- A scan outcome: errors also carry the instance state at the failure. -/
abbrev ScanE := Except (ScanErrKind × Scan) Scan

/-- The state carried by an outcome, whether or not the run failed. -/
def resultScan : ScanE → Scan
  | .ok sc => sc
  | .error (_, sc) => sc

def isOkScan : ScanE → Bool
  | .ok _ => true
  | .error _ => false

/-- The blacked-range window adjustment (lines 65–79 of `doc_agent.py`): the
first blacked entry whose start (preferred) or end falls inside the window
fires, truncating the end (and recording `bend + 1` as `next_more_from`) or
bumping the start; entries are scanned in list order. -/
def blackAdjust : List (Int × Int) → Int → Int → Int × Int × Option Int
  | [], s, e => (s, e, none)
  | (bs, be) :: rest, s, e =>
    if s ≤ bs ∧ bs ≤ e then (s, bs - 1, some (be + 1))
    else if s ≤ be ∧ be ≤ e then (be + 1, e, none)
    else blackAdjust rest s e

/-- Replace the i-th element of a list, identity when out of range. -/
def modifyIdx : List α → Nat → (α → α) → List α
  | [], _, _ => []
  | x :: xs, 0, f => f x :: xs
  | x :: xs, n + 1, f => x :: modifyIdx xs n f

/-- `DocAgent._found_target(**kwargs)`: record the blacked span when both
line fields are present (and overlap is disallowed), apply the target's
`map_fn` if any, and append the new `Result` to the active parent's children
or to the top-level forest. -/
def applyFound (t : Target) (fields : Fields) (sc : Scan) : Scan :=
  let sc :=
    match List.lookup "start_line" fields, List.lookup "end_line" fields with
    | some a, some b =>
      if sc.sameLevelOverlap then sc
      else { sc with blacked := sc.blacked ++ [(a, b)] }
    | _, _ => sc
  let data := match t.map_fn with
    | some f => f fields
    | none => fields
  let r : Result := .mk t.id data []
  match sc.currentParent with
  | some i => { sc with found := modifyIdx sc.found i (Result.addChildren [r]) }
  | none => { sc with found := sc.found ++ [r] }

/-- `Agent._handle_actions`: dispatch each action in order; an unregistered
name raises.  `retry_with` writes the next window directly; `found_target`
records a result. -/
def handleActions (t : Target) (sc : Scan) : List OAction → ScanE
  | [] => .ok sc
  | .found_target fields :: rest => handleActions t (applyFound t fields sc) rest
  | .retry_with s e om :: rest =>
    handleActions t { sc with startLine := s, endLine := e, omitted := om } rest
  | .other n :: _ => .error (.unknownAct n, sc)

/-- The `while True` body of `DocAgent._start_loop` (lines 62–116), as a
fuel-indexed recursion.  One fuel unit is one pass through the loop body
(either the whole-window-blacked `continue` or a read + oracle call). -/
def scanLoop (oracle : Oracle) (t : Target) : Nat → Scan → ScanE
  | 0, sc => .error (.outOfFuel, sc)
  | fuel + 1, sc =>
    let adj :=
      if !sc.sameLevelOverlap && !sc.blacked.isEmpty then
        blackAdjust sc.blacked sc.startLine sc.endLine
      else (sc.startLine, sc.endLine, none)
    let s := adj.1
    let e := adj.2.1
    let nmf := adj.2.2
    if s > e then
      if sc.sameLevelOverlap || sc.blacked.isEmpty then
        .error (.nameErr, { sc with startLine := s, endLine := e })
      else
        let s1 := match nmf with
          | some v => v + 1
          | none => s
        if s1 > sc.endLimit then .ok { sc with startLine := s1, endLine := e }
        else
          scanLoop oracle t fuel
            { sc with startLine := e + 1, endLine := min (e + 1 + 30) sc.endLimit }
    else
      match read_file_with_lines sc.doc s e true sc.omitted with
      | .error re => .error (.readErr re, { sc with startLine := s, endLine := e })
      | .ok _ =>
        let resp := oracle sc.oidx
        let sc1 := { sc with startLine := s, endLine := e,
                             trace := sc.trace ++ [(s, e)], oidx := sc.oidx + 1 }
        match handleActions t sc1 resp with
        | .error err => .error err
        | .ok sc2 =>
          if sc2.endLine ≥ sc2.endLimit then .ok sc2
          else if resp.any (fun a => a.aname == "retry_with") then
            scanLoop oracle t fuel sc2
          else
            scanLoop oracle t fuel
              { sc2 with startLine := sc2.endLine + 1,
                         endLine := min (sc2.endLine + 1 + 30) sc2.endLimit }

/-- The window initialisation at the top of `_start_loop` (lines 59–61):
`start = max(1, start_limit)`, `end = min(30, end_limit)`, omission spec
cleared.  Note the end is `min(30, ·)`, not `min(start + 29, ·)`. -/
def initWindow (sc : Scan) : Scan :=
  { sc with startLine := max 1 sc.startLimit, endLine := min 30 sc.endLimit,
            omitted := "" }

/-- `DocAgent._start_loop` in full (lines 56–139): run the level loop from a
fresh window, then for every result of this target recurse into each child
target with the read limits narrowed to the result's reported span and a
fresh blacked list, restoring limits, blacked list and parent afterwards.
`dfuel` bounds the recursion depth, `lfuel` each level's loop length. -/
def start_loop (oracle : Oracle) (lfuel : Nat) : Nat → Target → Scan → ScanE
  | 0, _, sc => .error (.outOfFuel, sc)
  | dfuel + 1, t, sc =>
    match scanLoop oracle t lfuel (initWindow sc) with
    | .error err => .error err
    | .ok sc1 =>
      if t.children.isEmpty then .ok sc1
      else
        let oldS := sc1.startLimit
        let oldE := sc1.endLimit
        let oldB := sc1.blacked
        let idxs := (List.range sc1.found.length).filter
          (fun i => (sc1.found.getD i (.mk "" [] [])).target_id == t.id)
        let res : ScanE := idxs.foldlM (fun sc i =>
          t.children.foldlM (fun sc ct =>
            let pd := (sc.found.getD i (.mk "" [] [])).rdata
            let ts := (List.lookup "start_line" pd).getD 1
            let te := (List.lookup "end_line" pd).getD oldE
            start_loop oracle lfuel dfuel ct
              { sc with startLimit := ts, endLimit := te, blacked := [] })
            { sc with currentParent := some i })
          sc1
        match res with
        | .error err => .error err
        | .ok sc2 =>
          .ok { sc2 with currentParent := none, startLimit := oldS,
                         endLimit := oldE, blacked := oldB }

/-- The fresh instance state of a `DocAgent` at the top of `run(file)`:
limits `1 .. line count`, empty blacked list and forest. -/
def scanInit (doc : List String) : Scan :=
  { doc := doc, startLine := 0, endLine := 0, omitted := "",
    startLimit := 1, endLimit := (doc.length : Int), blacked := [],
    found := [], currentParent := none, sameLevelOverlap := false,
    oidx := 0, trace := [] }

/-- `DocAgent.run(file)`: scan each target in turn against the whole
document (state, including blacked ranges and the forest, carries over
between targets). -/
def doc_run (oracle : Oracle) (lfuel dfuel : Nat) (targets : List Target)
    (doc : List String) : ScanE :=
  targets.foldlM (fun sc t => start_loop oracle lfuel dfuel t sc) (scanInit doc)

/-! ## Call-graph specialization
(`src/cga/agents/callgraph/callgraph_agent.py`, node type from
`src/cga/types.py`) -/

structure FileLoc where
  file : String
  line_start : Int
  line_end : Int

structure CallGraphNode where
  name : String
  loc : FileLoc

/-- `CallGraphNode.id()`: `"{file}:{line_start}:{name}"`. -/
def CallGraphNode.nodeId (n : CallGraphNode) : String :=
  n.loc.file ++ ":" ++ toString n.loc.line_start ++ ":" ++ n.name

/-- An edge's `attributes["loc"]` holds the call site (start = end = the
call's line). -/
structure CallGraphEdge where
  caller_id : String
  callee_id : String
  loc : FileLoc

/-- One structured action from an edge-discovery oracle response.  The only
registered action of `CallGraphAgent` is `record_function_call`. -/
inductive CGAction where
  | record_function_call (name : String) (file_line : Int)
  | unknown (name : String)

/-- `_handle_actions` in the call-graph agent: each
`record_function_call(name, file_line)` returns its kwargs; an unregistered
action name raises. -/
def cgHandleActions : List CGAction → Except String (List (String × Int))
  | [] => .ok []
  | .record_function_call n l :: rest =>
    match cgHandleActions rest with
    | .ok rs => .ok ((n, l) :: rs)
    | .error e => .error e
  | .unknown n :: _ => .error n

/-- The body of the `for (action, result) in zip(actions, results)` loop:
a `record_function_call` action whose callee name resolves against the node
list appends one edge. -/
def cgEdgeStep (nodes : List CallGraphNode) (func : CallGraphNode)
    (edges : List CallGraphEdge) (ar : CGAction × (String × Int)) :
    List CallGraphEdge :=
  match ar with
  | (CGAction.record_function_call _ _, (calleeName, callLine)) =>
    match nodes.find? (fun nd => nd.name == calleeName) with
    | some cn =>
      edges ++ [{ caller_id := func.nodeId, callee_id := cn.nodeId,
                  loc := { file := func.loc.file, line_start := callLine,
                           line_end := callLine } }]
    | none => edges
  | _ => edges

/-- `CallGraphAgent._extract_calls_from_func`: re-read the function's span,
submit one oracle request (its parsed actions are `resp`), then for every
`record_function_call` resolve the callee by exact name against the node
list (first match in discovery order) and append an edge; unresolved names
are dropped. -/
def extract_calls_from_func (nodes : List CallGraphNode) (doc : List String)
    (func : CallGraphNode) (resp : List CGAction) :
    Except String (List CallGraphEdge) :=
  match read_file_with_lines doc func.loc.line_start func.loc.line_end true "" with
  | .error _ => .error "range"
  | .ok _ =>
    match cgHandleActions resp with
    | .error e => .error e
    | .ok results => .ok ((List.zip resp results).foldl (cgEdgeStep nodes func) [])

/-- The edge list as the spec describes it: one edge per reported call that
resolves (by exact name, first discovered match), in report order. -/
def edgesSpec (nodes : List CallGraphNode) (func : CallGraphNode)
    (resp : List CGAction) : List CallGraphEdge :=
  resp.filterMap (fun a =>
    match a with
    | .record_function_call n l =>
      (nodes.find? (fun nd => nd.name == n)).map (fun cn =>
        { caller_id := func.nodeId, callee_id := cn.nodeId,
          loc := { file := func.loc.file, line_start := l, line_end := l } })
    | .unknown _ => none)

/-! ## Keyword binding of `CallGraphAgent.run`'s `DocAgent(...)` call

`CallGraphAgent.run` (lines 32–66) constructs the `DocAgent` imported from
`cga.agents.doc.doc_agent` with the keyword arguments below.  That class's
`__init__` (lines 18–22) declares exactly the parameters below, all without
defaults and with no `**kwargs`.  CPython binds a call only when every
keyword names a declared parameter and every default-less parameter
receives a value; otherwise the call raises `TypeError`. -/

/-- CPython keyword binding for a signature with no `*args`/`**kwargs`. -/
def pyBindOk (params required kwargs : List String) : Bool :=
  kwargs.all (fun k => params.contains k) && required.all (fun r => kwargs.contains r)

/-- Parameters of `DocAgent.__init__` (`self` aside). -/
def docAgentInitParams : List String := ["llm_client", "fs", "targets"]

/-- Parameters of `DocAgent.__init__` without a default value. -/
def docAgentInitRequired : List String := ["llm_client", "fs", "targets"]

/-- Keywords that `CallGraphAgent.run` passes to `DocAgent(...)`. -/
def callGraphRunDocAgentKwargs : List String :=
  ["llm_client", "fs", "target_def", "target_schema", "target_map_fn"]

/-! ## The window sequence of an undisturbed scan

With an empty blacked list and an oracle that returns no actions, the loop
reads `(s, e)` and, unless `e` has reached the limit `n`, continues from
`(e + 1, min (e + 1 + 30) n)` — the `_next_more(30)` advancement. -/

/-- The windows such a scan reads, from a current window `(s, e)`. -/
def windowsFrom (n : Int) : Nat → Int → Int → List (Int × Int)
  | 0, _, _ => []
  | fuel + 1, s, e =>
    (s, e) :: (if e ≥ n then [] else windowsFrom n fuel (e + 1) (min (e + 1 + 30) n))

/-! ## Concrete inputs used in the counterexamples and witnesses -/

/-- A flat target with neither transform nor children. -/
def tFlat : Target := ⟨"t", none, []⟩

/-- The `function` child target of the call-graph hierarchy (no transform
for the purposes of the scan state). -/
def tFunction : Target := ⟨"function", none, []⟩

/-- The `class` target with `function` as nested child. -/
def tClass : Target := ⟨"class", none, [tFunction]⟩

/-- An oracle that never returns any action. -/
def emptyOracle : Oracle := fun _ => []

def doc30 : List String := List.replicate 30 "line"

def doc61 : List String := List.replicate 61 "line"

def doc13 : List String := List.replicate 13 "line"

def doc35 : List String := List.replicate 35 "line"

def doc5 : List String := ["a", "b", "c", "d", "e"]

def doc4 : List String := ["def foo():", "    bar()", "def bar():", "    pass"]

/-- An oracle reporting two overlapping spans in its first response. -/
def overlapOracle : Oracle := fun _ =>
  [.found_target [("start_line", 1), ("end_line", 10)],
   .found_target [("start_line", 5), ("end_line", 15)]]

/-- An oracle for a class-then-function run: the class at lines 1–4, then a
"function" whose reported span (100–200) lies far outside the class. -/
def childEscapeOracle : Oracle := fun i =>
  if i = 0 then [.found_target [("start_line", 1), ("end_line", 4)]]
  else [.found_target [("start_line", 100), ("end_line", 200)]]

/-- An oracle whose every response is a single `retry_with(5, 12)`. -/
def retryOracle : Oracle := fun _ => [.retry_with 5 12 ""]

/-- An oracle reporting one in-bounds function span (lines 2–3). -/
def inBoundsOracle : Oracle := fun _ =>
  [.found_target [("start_line", 2), ("end_line", 3)]]

def nodeFoo : CallGraphNode := ⟨"foo", ⟨"/example.py", 1, 2⟩⟩

def nodeBar : CallGraphNode := ⟨"bar", ⟨"/example.py", 3, 4⟩⟩

/-- An edge-discovery response reporting the same call twice. -/
def dupCallResp : List CGAction :=
  [.record_function_call "bar" 2, .record_function_call "bar" 2]

/-! ## Observables of oracle responses

These recover, from a response (and from the sequence of responses a run
consumed), exactly what `_handle_actions` will append: the blacked spans of
the `found_target` actions carrying both line fields, and the `Result`s. -/

/-- The `(start_line, end_line)` spans that a response's `found_target`
actions contribute to the blacked list, in dispatch order. -/
def spansOf (resp : List OAction) : List (Int × Int) :=
  resp.filterMap (fun a =>
    match a with
    | .found_target f =>
      match List.lookup "start_line" f, List.lookup "end_line" f with
      | some x, some y => some (x, y)
      | _, _ => none
    | _ => none)

/-- The field sets of a response's `found_target` actions, in order. -/
def foundFieldsOf (resp : List OAction) : List Fields :=
  resp.filterMap (fun a =>
    match a with
    | .found_target f => some f
    | _ => none)

/-- The target's `map_fn` applied when present. -/
def applyMapFn (t : Target) (f : Fields) : Fields :=
  match t.map_fn with
  | some g => g f
  | none => f

/-- The `Result`s one response appends for target `t`, in order. -/
def newResultsOf (t : Target) (resp : List OAction) : List Result :=
  (foundFieldsOf resp).map (fun f => .mk t.id (applyMapFn t f) [])

/-- The oracle responses a run consumed: indices `a, a+1, …, a+k-1`. -/
def respsConsumed (o : Oracle) (a k : Nat) : List (List OAction) :=
  (List.range' a k).map o

def spansOfMany (rs : List (List OAction)) : List (Int × Int) :=
  (rs.map spansOf).flatten

def newResultsOfMany (t : Target) (rs : List (List OAction)) : List Result :=
  (rs.map (newResultsOf t)).flatten

/-- The scan-state components that action handling never touches: trace,
oracle index, document, read limits, active parent, overlap flag. -/
def scanCore (sc : Scan) :
    List (Int × Int) × Nat × List String × Int × Int × Option Nat × Bool :=
  (sc.trace, sc.oidx, sc.doc, sc.startLimit, sc.endLimit, sc.currentParent,
   sc.sameLevelOverlap)

/-- The window components: start line, end line, pending omission spec. -/
def windowOf (sc : Scan) : Int × Int × String :=
  (sc.startLine, sc.endLine, sc.omitted)

/-- The state just after a successful windowed read, right before its oracle
response is dispatched: the window is recorded on the trace and the next
oracle call is pending. -/
def readScan (sc : Scan) : Scan :=
  { sc with trace := sc.trace ++ [(sc.startLine, sc.endLine)], oidx := sc.oidx + 1 }

/-- The kwargs dict that a `record_function_call` handler returns. -/
def cgPayload : CGAction → String × Int
  | .record_function_call n l => (n, l)
  | .unknown n => (n, 0)

/-- A filesystem on which nothing is a directory. -/
def noDirFS : FileSys := ⟨fun _ => false, fun _ => [], fun _ => false⟩

/-- A toy absolutization for the `list_files` witness. -/
def absPathW : String → String := fun s => "/abs" ++ s

/-! ## Lemmas about the windowed read -/

theorem mem_intRange {a b i : Int} : i ∈ intRange a b ↔ a ≤ i ∧ i < b := by
  constructor
  · intro hmem
    unfold intRange at hmem
    obtain ⟨k, hk, hik⟩ := List.mem_map.mp hmem
    rw [List.mem_range] at hk
    omega
  · intro h
    unfold intRange
    exact List.mem_map.mpr ⟨(i - a).toNat, List.mem_range.mpr (by omega), by omega⟩

theorem pyIndex_none_iff (doc : List String) (i : Int) (h : 0 ≤ i) :
    pyIndex doc i = none ↔ (doc.length : Int) ≤ i := by
  rw [pyIndex]
  rcases lt_or_le i (doc.length : Int) with hlt | hge
  · rw [if_pos ⟨h, hlt⟩]
    simp only [List.get?_eq_none]
    omega
  · rw [if_neg (by omega), if_neg (by omega)]
    simp only [true_iff]
    exact hge

theorem selectLines_eq_none_iff (doc : List String) :
    ∀ l, selectLines doc l = none ↔ ∃ i ∈ l, pyIndex doc i = none := by
  intro l
  induction l with
  | nil => simp [selectLines]
  | cons i is ih =>
    constructor
    · intro hnone
      rcases h : pyIndex doc i with _ | c
      · exact ⟨i, by simp, h⟩
      · rcases h2 : selectLines doc is with _ | rest
        · obtain ⟨j, hj, hjn⟩ := ih.mp h2
          exact ⟨j, by simp [hj], hjn⟩
        · rw [selectLines, h, h2] at hnone
          simp at hnone
    · rintro ⟨j, hj, hjn⟩
      rw [selectLines]
      rcases List.mem_cons.mp hj with rfl | hj2
      · rw [hjn]
      · rw [ih.mpr ⟨j, hj2, hjn⟩]
        cases pyIndex doc i <;> rfl

theorem read_ok (doc : List String) (s e : Int) (b : Bool) (h1 : 1 ≤ s)
    (h2 : e ≤ (doc.length : Int)) :
    ∃ out, read_file_with_lines doc s e b "" = .ok out := by
  rcases hfind : selectLines doc (intRange (s - 1) e) with _ | sel
  · obtain ⟨i, hi, hn⟩ := (selectLines_eq_none_iff doc _).mp hfind
    rw [mem_intRange] at hi
    rw [pyIndex_none_iff doc i (by omega)] at hn
    omega
  · rw [read_file_with_lines, hfind]
    simp only [if_pos rfl]
    cases b <;> exact ⟨_, rfl⟩

/-- Claim C7 counterexample: a reversed window (`start > end`) does not
raise a range error — the read succeeds with an empty result. -/
theorem c7_counterexample_reversed_range_no_error :
    read_file_with_lines doc5 5 3 true "" = .ok "" ∧ 5 > 3 :=
  ⟨rfl, by decide⟩

/-- Claim C7 (amended): for `1 ≤ start`, the windowed read raises a range
error — carrying the offending bounds and the document size — exactly when
the selection is non-empty and runs past the document (`start ≤ end` and
`end > line count`); a reversed window returns successfully. -/
theorem c7_amended_range_error_iff (doc : List String) (s e : Int) (b : Bool)
    (h1 : 1 ≤ s) :
    (∃ err, read_file_with_lines doc s e b "" = .error err ∧
        err.startLine = s ∧ err.endLine = e ∧ err.docLines = doc.length) ↔
      (s ≤ e ∧ (doc.length : Int) < e) := by
  constructor
  · rintro ⟨err, herr, h3, h4, h5⟩
    rcases hfind : selectLines doc (intRange (s - 1) e) with _ | sel
    · obtain ⟨i, hi, hn⟩ := (selectLines_eq_none_iff doc _).mp hfind
      rw [mem_intRange] at hi
      rw [pyIndex_none_iff doc i (by omega)] at hn
      omega
    · rw [read_file_with_lines, hfind] at herr
      simp only [if_pos rfl] at herr
      cases b <;> simp at herr
  · rintro ⟨hse, hlen⟩
    refine ⟨⟨s, e, doc.length⟩, ?_, rfl, rfl, rfl⟩
    have hnone : selectLines doc (intRange (s - 1) e) = none := by
      rw [selectLines_eq_none_iff]
      refine ⟨e - 1, ?_, ?_⟩
      · rw [mem_intRange]; omega
      · rw [pyIndex_none_iff doc _ (by omega)]; omega
    rw [read_file_with_lines, hnone]

/-- Claim C7 witness for the amended theorem, at a concrete over-long
window. -/
theorem c7_amended_range_error_iff_witness :
    (∃ err, read_file_with_lines doc5 2 7 true "" = .error err ∧
        err.startLine = 2 ∧ err.endLine = 7 ∧ err.docLines = doc5.length) ↔
      ((2:Int) ≤ 7 ∧ (doc5.length : Int) < 7) :=
  c7_amended_range_error_iff doc5 2 7 true (by decide)

/-! ## Lemma for the omission loop -/

theorem omitLoop_stuck_eq (r : Int × Int) (rest : List (Int × Int)) :
    ∀ lines : List (Int × String), r.2 ∉ lines.map Prod.fst →
      omitLoop lines (r :: rest) =
        lines.filter (fun p => decide ¬(r.1 ≤ p.1 ∧ p.1 ≤ r.2)) := by
  intro lines
  obtain ⟨r1, r2⟩ := r
  induction lines with
  | nil => intro _; rfl
  | cons p tl ih =>
    intro h
    obtain ⟨n, c⟩ := p
    simp only [List.map_cons, List.mem_cons, not_or] at h
    obtain ⟨hne, htl⟩ := h
    rw [omitLoop]
    by_cases hin : r1 ≤ n ∧ n ≤ r2
    · have hnr : ¬ n = r2 := fun hh => hne (by rw [hh])
      rw [if_pos hin, if_neg hnr, ih htl, List.filter_cons]
      have hd : (decide ¬((r1, r2).1 ≤ (n, c).1 ∧ (n, c).1 ≤ (r1, r2).2)) = false := by
        simp [hin.1, hin.2]
      rw [hd]
      simp
    · rw [if_neg hin, ih htl, List.filter_cons]
      have hd : (decide ¬((r1, r2).1 ≤ (n, c).1 ∧ (n, c).1 ≤ (r1, r2).2)) = true := by
        simp only [decide_eq_true_eq]
        exact hin
      rw [hd]
      simp

/-- Claim C9: once the cursor sits on an omitted run whose final line number
never occurs in the remaining input, `omit_lines`'s walking loop emits no
marker for it, never advances to a later run, and passes every entry outside
that run through unchanged — in particular entries belonging to later
omitted runs survive. -/
theorem c9_omit_lines_stuck_run (lines : List (Int × String)) (r : Int × Int)
    (rest : List (Int × Int)) (h : r.2 ∉ lines.map Prod.fst) :
    omitLoop lines (r :: rest) =
      lines.filter (fun p => decide ¬(r.1 ≤ p.1 ∧ p.1 ≤ r.2)) ∧
    (∀ p ∈ lines, r.2 < p.1 → p ∈ omitLoop lines (r :: rest)) ∧
    (∀ s, (-1, s) ∈ omitLoop lines (r :: rest) → (-1, s) ∈ lines) := by
  have heq := omitLoop_stuck_eq r rest lines h
  refine ⟨heq, ?_, ?_⟩
  · intro p hp hgt
    rw [heq, List.mem_filter]
    exact ⟨hp, by simp; omega⟩
  · intro s hs
    rw [heq] at hs
    exact (List.mem_filter.mp hs).1

/-- Claim C9 witness: omitted runs `2–4` and `6–6` against entries
`1, 2, 6` — line 4 never occurs, so no marker appears, and the line of the
later run (6) passes through. -/
theorem c9_omit_lines_stuck_run_witness :
    ((4:Int) ∉ ([(1, "a"), (2, "b"), (6, "c")] : List (Int × String)).map Prod.fst) ∧
    (omitLoop [(1, "a"), (2, "b"), (6, "c")] [(2, 4), (6, 6)] =
        ([(1, "a"), (2, "b"), (6, "c")] : List (Int × String)).filter
          (fun p => decide ¬((2:Int) ≤ p.1 ∧ p.1 ≤ 4)) ∧
      (∀ p ∈ ([(1, "a"), (2, "b"), (6, "c")] : List (Int × String)), (4:Int) < p.1 →
        p ∈ omitLoop [(1, "a"), (2, "b"), (6, "c")] [(2, 4), (6, 6)]) ∧
      (∀ s, (-1, s) ∈ omitLoop [(1, "a"), (2, "b"), (6, "c")] [(2, 4), (6, 6)] →
        (-1, s) ∈ ([(1, "a"), (2, "b"), (6, "c")] : List (Int × String)))) :=
  ⟨by decide, c9_omit_lines_stuck_run [(1, "a"), (2, "b"), (6, "c")] (2, 4) [(6, 6)] (by decide)⟩

/-! ## Claims C10 and C1 -/

/-- Claim C10: `list_files` applies the white-list filter only to
directories; any non-directory path — an ordinary file or a non-existent
path alike — comes back as the one-element list of its absolutized self,
white list notwithstanding. -/
theorem c10_list_files_non_directory (fs : FileSys) (wl : List String)
    (abspath : String → String) (p : String)
    (h : fs.isdir (abspath p) = false) :
    list_files fs wl abspath p = [abspath p] := by
  simp [list_files, h]

/-- Claim C10 witness: a path that is not a directory, against a white list
it does not match. -/
theorem c10_list_files_non_directory_witness :
    noDirFS.isdir (absPathW "/x") = false ∧
    list_files noDirFS ["/allowed"] absPathW "/x" = [absPathW "/x"] :=
  ⟨rfl, c10_list_files_non_directory noDirFS ["/allowed"] absPathW "/x" rfl⟩

/-- Claim C1 (the code): `CallGraphAgent.run` builds its `DocAgent` with the
keywords `target_def`, `target_schema`, `target_map_fn`, but the imported
`DocAgent.__init__` declares only `llm_client`, `fs`, `targets` (all
required) — CPython keyword binding fails, so the construction raises
`TypeError` before any oracle call and the 2-node/1-edge graph of the
scenario is never produced. -/
theorem c1_callgraph_run_docagent_binding_fails :
    pyBindOk docAgentInitParams docAgentInitRequired callGraphRunDocAgentKwargs
      = false := by
  decide

/-! ## Claim C8: edge list of one edge-discovery pass -/

theorem cgHandleActions_records (resp : List CGAction)
    (h : ∀ a ∈ resp, ∃ n l, a = CGAction.record_function_call n l) :
    cgHandleActions resp = .ok (resp.map cgPayload) := by
  induction resp with
  | nil => rfl
  | cons a rest ih =>
    obtain ⟨n, l, rfl⟩ := h a (by simp)
    rw [cgHandleActions, ih (fun x hx => h x (by simp [hx]))]
    rfl

theorem cgEdgeStep_fold (nodes : List CallGraphNode) (func : CallGraphNode) :
    ∀ (resp : List CGAction) (acc : List CallGraphEdge),
      (List.zip resp (resp.map cgPayload)).foldl (cgEdgeStep nodes func) acc =
        acc ++ edgesSpec nodes func resp := by
  intro resp
  induction resp with
  | nil => intro acc; simp [edgesSpec]
  | cons a rest ih =>
    intro acc
    rw [List.map_cons, List.zip_cons_cons, List.foldl_cons, ih]
    cases a with
    | record_function_call n l =>
      rw [cgEdgeStep, cgPayload]
      rcases hf : nodes.find? (fun nd => nd.name == n) with _ | cn
      · simp [edgesSpec, hf, List.filterMap_cons]
      · simp [edgesSpec, hf, List.filterMap_cons]
    | unknown n =>
      have he : edgesSpec nodes func (CGAction.unknown n :: rest) =
          edgesSpec nodes func rest := by
        simp [edgesSpec, List.filterMap_cons]
      rw [he]
      rfl

/-- Claim C8 counterexample: an oracle response reporting the same call to
`bar` twice yields two identical edges from `foo` — per-caller callee lists
are not deduplicated. -/
theorem c8_counterexample_duplicate_edges :
    extract_calls_from_func [nodeFoo, nodeBar] doc4 nodeFoo dupCallResp =
      .ok [⟨"/example.py:1:foo", "/example.py:3:bar", ⟨"/example.py", 2, 2⟩⟩,
           ⟨"/example.py:1:foo", "/example.py:3:bar", ⟨"/example.py", 2, 2⟩⟩] ∧
    ¬ (["/example.py:3:bar", "/example.py:3:bar"] : List String).Nodup :=
  ⟨rfl, by decide⟩

/-- Claim C8 (amended): the per-caller edge list contains one edge per
reported call whose callee name resolves (first node in discovery order, by
exact name), in report order; duplicates are retained rather than removed. -/
theorem c8_amended_edges_follow_reports (nodes : List CallGraphNode)
    (doc : List String) (func : CallGraphNode) (resp : List CGAction)
    (hr : ∀ a ∈ resp, ∃ n l, a = CGAction.record_function_call n l)
    (hread : ∃ out,
      read_file_with_lines doc func.loc.line_start func.loc.line_end true ""
        = .ok out) :
    extract_calls_from_func nodes doc func resp = .ok (edgesSpec nodes func resp) := by
  obtain ⟨out, hout⟩ := hread
  rw [extract_calls_from_func, hout, cgHandleActions_records resp hr]
  show Except.ok ((List.zip resp (resp.map cgPayload)).foldl (cgEdgeStep nodes func) [])
    = Except.ok (edgesSpec nodes func resp)
  rw [cgEdgeStep_fold]
  rfl

/-- Claim C8 witness for the amended theorem, on the duplicate-call
response. -/
theorem c8_amended_edges_follow_reports_witness :
    extract_calls_from_func [nodeFoo, nodeBar] doc4 nodeFoo dupCallResp =
      .ok (edgesSpec [nodeFoo, nodeBar] nodeFoo dupCallResp) :=
  c8_amended_edges_follow_reports [nodeFoo, nodeBar] doc4 nodeFoo dupCallResp
    (by intro a ha
        simp only [dupCallResp, List.mem_cons, List.not_mem_nil, or_false] at ha
        rcases ha with rfl | rfl
        · exact ⟨"bar", 2, rfl⟩
        · exact ⟨"bar", 2, rfl⟩)
    ⟨"1: def foo():\n2:     bar()", rfl⟩

/-! ## Closed counterexamples against the scan-loop claims -/

/-- Claim C2 counterexample: for a 61-line document (lower limit 1), the
undisturbed scan reads windows `1–30` then `31–61` — two oracle calls, while
the claimed `ceil(61/30)` is three; the second advancement jumps 31 lines,
not 30. -/
theorem c2_counterexample_61_lines :
    isOkScan (doc_run emptyOracle 4 2 [tFlat] doc61) = true ∧
    (resultScan (doc_run emptyOracle 4 2 [tFlat] doc61)).trace = [(1, 30), (31, 61)] ∧
    (resultScan (doc_run emptyOracle 4 2 [tFlat] doc61)).oidx = 2 ∧
    (61 + 30 - 1) / 30 = 3 ∧ (2 : Nat) ≠ 3 :=
  ⟨rfl, rfl, rfl, by decide, by decide⟩

/-- Claim C3 counterexample: for read limits `40 … 60` (as a child scan of a
span starting past line 30 would set), the initial window is
`start = 40, end = min(30, 60) = 30` — not `min(start + 29, 60) = 60` — and
it is empty (`start > end`) although `lower_limit ≤ upper_limit`. -/
theorem c3_counterexample_initial_window :
    (initWindow { scanInit doc61 with startLimit := 40, endLimit := 60 }).startLine = 40 ∧
    (initWindow { scanInit doc61 with startLimit := 40, endLimit := 60 }).endLine = 30 ∧
    ¬ ((30 : Int) = min (40 + 29) 60) ∧ ¬ ((40 : Int) ≤ 30) :=
  ⟨rfl, rfl, by decide, by decide⟩

/-- Claim C4 counterexample: an oracle whose one response reports the
overlapping spans `1–10` and `5–15` leaves both on the blacked list — the
engine performs no overlap check, so the recorded ranges intersect (both
contain line 5). -/
theorem c4_counterexample_overlapping_blacked :
    isOkScan (doc_run overlapOracle 3 2 [tFlat] doc30) = true ∧
    (resultScan (doc_run overlapOracle 3 2 [tFlat] doc30)).blacked = [(1, 10), (5, 15)] ∧
    ((1 : Int) ≤ 5 ∧ (5 : Int) ≤ 10) ∧ ((5 : Int) ≤ 5 ∧ (5 : Int) ≤ 15) :=
  ⟨rfl, rfl, by decide, by decide⟩

/-- Claim C5 counterexample: the class at lines 1–4 is scanned for child
functions with limits narrowed to 1–4, but the oracle's reported child span
100–200 is recorded verbatim — the child Result's span lies far outside its
parent's. -/
theorem c5_counterexample_child_outside_parent :
    isOkScan (doc_run childEscapeOracle 3 3 [tClass] doc4) = true ∧
    (resultScan (doc_run childEscapeOracle 3 3 [tClass] doc4)).found =
      [.mk "class" [("start_line", 1), ("end_line", 4)]
          [.mk "function" [("start_line", 100), ("end_line", 200)] []]] ∧
    ¬ ((1 : Int) ≤ 100 ∧ (100 : Int) ≤ 4 ∧ (1 : Int) ≤ 200 ∧ (200 : Int) ≤ 4) :=
  ⟨rfl, rfl, by decide⟩

/-! ## Effect of action handling on the scan state -/

theorem modifyIdx_congr (f g : α → α) (h : ∀ x, f x = g x) :
    ∀ (l : List α) (i : Nat), modifyIdx l i f = modifyIdx l i g := by
  intro l
  induction l with
  | nil => intro i; rfl
  | cons x xs ih =>
    intro i
    cases i with
    | zero => rw [modifyIdx, modifyIdx, h]
    | succ n => rw [modifyIdx, modifyIdx, ih]

theorem modifyIdx_id (l : List α) (i : Nat) (f : α → α) (h : ∀ x, f x = x) :
    modifyIdx l i f = l := by
  induction l generalizing i with
  | nil => rfl
  | cons x xs ih =>
    cases i with
    | zero => rw [modifyIdx, h]
    | succ n => rw [modifyIdx, ih]

theorem modifyIdx_comp (l : List α) (i : Nat) (f g : α → α) :
    modifyIdx (modifyIdx l i f) i g = modifyIdx l i (fun x => g (f x)) := by
  induction l generalizing i with
  | nil => rfl
  | cons x xs ih =>
    cases i with
    | zero => rfl
    | succ n => rw [modifyIdx, modifyIdx, modifyIdx, ih]

theorem addChildren_nil (r : Result) : Result.addChildren [] r = r := by
  cases r with
  | mk i d c => rw [Result.addChildren, List.append_nil]

theorem addChildren_addChildren (rs1 rs2 : List Result) (r : Result) :
    Result.addChildren rs2 (Result.addChildren rs1 r) =
      Result.addChildren (rs1 ++ rs2) r := by
  cases r with
  | mk i d c => rw [Result.addChildren, Result.addChildren, Result.addChildren,
      List.append_assoc]

theorem applyFound_core (t : Target) (f : Fields) (sc : Scan) :
    scanCore (applyFound t f sc) = scanCore sc ∧
    windowOf (applyFound t f sc) = windowOf sc := by
  rcases h1 : List.lookup "start_line" f with _ | a <;>
    rcases h2 : List.lookup "end_line" f with _ | b <;>
    rcases h3 : sc.currentParent with _ | i <;>
    cases h4 : sc.sameLevelOverlap <;>
    simp [applyFound, h1, h2, h3, h4, scanCore, windowOf]

theorem applyFound_effect (t : Target) (f : Fields) (sc : Scan)
    (hov : sc.sameLevelOverlap = false) :
    (applyFound t f sc).blacked = sc.blacked ++ spansOf [OAction.found_target f] ∧
    (applyFound t f sc).found =
      (match sc.currentParent with
       | none => sc.found ++ [Result.mk t.id (applyMapFn t f) []]
       | some i =>
         modifyIdx sc.found i
           (Result.addChildren [Result.mk t.id (applyMapFn t f) []])) := by
  rcases h1 : List.lookup "start_line" f with _ | a <;>
    rcases h2 : List.lookup "end_line" f with _ | b <;>
    rcases h3 : sc.currentParent with _ | i <;>
    simp [applyFound, h1, h2, h3, hov, spansOf, applyMapFn, modifyIdx]

theorem handleActions_core (t : Target) :
    ∀ (l : List OAction) (sc : Scan),
      scanCore (resultScan (handleActions t sc l)) = scanCore sc := by
  intro l
  induction l with
  | nil => intro sc; rfl
  | cons a rest ih =>
    intro sc
    cases a with
    | found_target f =>
      rw [handleActions, ih]
      exact (applyFound_core t f sc).1
    | retry_with s e om =>
      rw [handleActions, ih]
      rfl
    | other n => rfl

theorem handleActions_ok_effect (t : Target) :
    ∀ (l : List OAction) (sc sc' : Scan), sc.sameLevelOverlap = false →
      handleActions t sc l = .ok sc' →
      sc'.blacked = sc.blacked ++ spansOf l ∧
      sc'.found =
        (match sc.currentParent with
         | none => sc.found ++ newResultsOf t l
         | some i =>
           modifyIdx sc.found i (Result.addChildren (newResultsOf t l))) := by
  intro l
  induction l with
  | nil =>
    intro sc sc' hov h
    cases h
    refine ⟨by simp [spansOf], ?_⟩
    rcases h3 : sc.currentParent with _ | i
    · simp [newResultsOf, foundFieldsOf]
    · simp only [newResultsOf, foundFieldsOf, List.filterMap_nil, List.map_nil]
      exact (modifyIdx_id _ _ _ addChildren_nil).symm
  | cons a rest ih =>
    intro sc sc' hov h
    cases a with
    | found_target f =>
      rw [handleActions] at h
      have hov2 : (applyFound t f sc).sameLevelOverlap = false := by
        have := (applyFound_core t f sc).1
        simp only [scanCore, Prod.mk.injEq] at this
        rw [this.2.2.2.2.2.2, hov]
      obtain ⟨hb, hf⟩ := ih (applyFound t f sc) sc' hov2 h
      have hpar : (applyFound t f sc).currentParent = sc.currentParent := by
        have := (applyFound_core t f sc).1
        simp only [scanCore, Prod.mk.injEq] at this
        exact this.2.2.2.2.2.1
      obtain ⟨hab, haf⟩ := applyFound_effect t f sc hov
      constructor
      · rw [hb, hab]
        have : spansOf (OAction.found_target f :: rest) =
            spansOf [OAction.found_target f] ++ spansOf rest := by
          simp [spansOf, List.filterMap_cons]
          rcases List.lookup "start_line" f with _ | a <;>
            rcases List.lookup "end_line" f with _ | b <;> simp
        rw [this, List.append_assoc]
      · rw [hf, hpar, haf]
        have hnew : newResultsOf t (OAction.found_target f :: rest) =
            Result.mk t.id (applyMapFn t f) [] :: newResultsOf t rest := by
          simp [newResultsOf, foundFieldsOf, List.filterMap_cons]
        rcases h3 : sc.currentParent with _ | i
        · dsimp only
          rw [hnew, List.append_assoc, List.singleton_append]
        · dsimp only
          rw [modifyIdx_comp, hnew]
          refine modifyIdx_congr _ _ (fun x => ?_) _ _
          rw [addChildren_addChildren, List.singleton_append]
    | retry_with s e om =>
      rw [handleActions] at h
      obtain ⟨hb, hf⟩ := ih _ sc' (by simpa using hov) h
      constructor
      · rw [hb]
        simp [spansOf, List.filterMap_cons]
      · rw [hf]
        have hnew : newResultsOf t (OAction.retry_with s e om :: rest) =
            newResultsOf t rest := by
          simp [newResultsOf, foundFieldsOf, List.filterMap_cons]
        rcases h3 : sc.currentParent with _ | i <;> simp [h3, hnew]
    | other n =>
      rw [handleActions] at h
      cases h

/-! ## The run-wide effect of the scan loop -/

theorem scanCore_eq {a b : Scan} (h : scanCore a = scanCore b) :
    a.trace = b.trace ∧ a.oidx = b.oidx ∧ a.doc = b.doc ∧
    a.startLimit = b.startLimit ∧ a.endLimit = b.endLimit ∧
    a.currentParent = b.currentParent ∧
    a.sameLevelOverlap = b.sameLevelOverlap := by
  simpa [scanCore, Prod.ext_iff] using h

theorem respsConsumed_zero (o : Oracle) (a : Nat) : respsConsumed o a 0 = [] := rfl

theorem respsConsumed_succ (o : Oracle) (a k : Nat) :
    respsConsumed o a (k + 1) = o a :: respsConsumed o (a + 1) k := by
  rw [respsConsumed, respsConsumed, List.range'_succ, List.map_cons]

theorem spansOfMany_cons (r : List OAction) (rs : List (List OAction)) :
    spansOfMany (r :: rs) = spansOf r ++ spansOfMany rs := by
  simp [spansOfMany]

theorem newResultsOfMany_cons (t : Target) (r : List OAction)
    (rs : List (List OAction)) :
    newResultsOfMany t (r :: rs) = newResultsOf t r ++ newResultsOfMany t rs := by
  simp [newResultsOfMany]

theorem found_match_nil (t : Target) (fo : List Result) (p : Option Nat) :
    (match p with
     | none => fo ++ newResultsOfMany t []
     | some i => modifyIdx fo i (Result.addChildren (newResultsOfMany t []))) = fo := by
  rcases p with _ | i
  · simp [newResultsOfMany]
  · dsimp only
    simp only [newResultsOfMany, List.map_nil, List.flatten_nil]
    exact modifyIdx_id _ _ _ addChildren_nil

theorem found_match_compose (t : Target) (fo : List Result) (p : Option Nat)
    (resp : List OAction) (rs : List (List OAction)) :
    (match p with
     | none =>
       (fo ++ newResultsOf t resp) ++ newResultsOfMany t rs
     | some i =>
       modifyIdx (modifyIdx fo i (Result.addChildren (newResultsOf t resp))) i
         (Result.addChildren (newResultsOfMany t rs))) =
    (match p with
     | none => fo ++ newResultsOfMany t (resp :: rs)
     | some i => modifyIdx fo i (Result.addChildren (newResultsOfMany t (resp :: rs)))) := by
  rcases p with _ | i
  · dsimp only
    rw [newResultsOfMany_cons, List.append_assoc]
  · dsimp only
    rw [modifyIdx_comp, newResultsOfMany_cons]
    refine modifyIdx_congr _ _ (fun x => ?_) _ _
    rw [addChildren_addChildren]

/-- Master effect lemma: a scan level that returns normally has consumed
some number `k` of oracle responses; its blacked list is the starting list
plus exactly the reported spans of those responses, in order, and its forest
is the starting forest plus exactly the reported results (appended to the
active parent's children when one is set). -/
theorem scanLoop_ok_spec (o : Oracle) (t : Target) :
    ∀ (fuel : Nat) (sc sc' : Scan), sc.sameLevelOverlap = false →
      scanLoop o t fuel sc = .ok sc' →
      ∃ k, sc'.oidx = sc.oidx + k ∧
        sc'.blacked = sc.blacked ++ spansOfMany (respsConsumed o sc.oidx k) ∧
        sc'.found =
          (match sc.currentParent with
           | none => sc.found ++ newResultsOfMany t (respsConsumed o sc.oidx k)
           | some i => modifyIdx sc.found i
               (Result.addChildren (newResultsOfMany t (respsConsumed o sc.oidx k)))) ∧
        sc'.currentParent = sc.currentParent ∧
        sc'.sameLevelOverlap = false := by
  intro fuel
  induction fuel with
  | zero =>
    intro sc sc' hov h
    simp [scanLoop] at h
  | succ fuel ih =>
    intro sc sc' hov h
    rw [scanLoop] at h
    simp only [] at h
    rcases hadj : (if !sc.sameLevelOverlap && !sc.blacked.isEmpty then
        blackAdjust sc.blacked sc.startLine sc.endLine
      else (sc.startLine, sc.endLine, none)) with ⟨s, e, nmf⟩
    rw [hadj] at h
    dsimp only at h
    by_cases h1 : s > e
    · rw [if_pos h1] at h
      cases hg : (sc.sameLevelOverlap || sc.blacked.isEmpty) with
      | true => rw [if_pos hg] at h; simp at h
      | false =>
        rw [if_neg (by rw [hg]; simp)] at h
        split at h
        · simp only [Except.ok.injEq] at h
          subst h
          refine ⟨0, rfl, by simp [respsConsumed, spansOfMany], ?_, rfl, hov⟩
          exact (found_match_nil t sc.found sc.currentParent).symm
        · exact ih
            { sc with
              startLine := e + 1
              endLine := min (e + 1 + 30) sc.endLimit }
            sc' hov h
    · rw [if_neg h1] at h
      rcases hread : read_file_with_lines sc.doc s e true sc.omitted with re | out
      · rw [hread] at h; simp at h
      · rw [hread] at h
        dsimp only at h
        rcases hh : handleActions t
            { sc with startLine := s, endLine := e,
                      trace := sc.trace ++ [(s, e)], oidx := sc.oidx + 1 }
            (o sc.oidx) with err | sc2
        · rw [hh] at h; simp at h
        · rw [hh] at h
          dsimp only at h
          have hc := handleActions_core t (o sc.oidx)
            { sc with startLine := s, endLine := e,
                      trace := sc.trace ++ [(s, e)], oidx := sc.oidx + 1 }
          rw [hh] at hc
          simp only [resultScan] at hc
          obtain ⟨hctr, hcoidx, hcdoc, hcsl, hcel, hcpar, hcov⟩ := scanCore_eq hc
          have hef := handleActions_ok_effect t (o sc.oidx)
            { sc with startLine := s, endLine := e,
                      trace := sc.trace ++ [(s, e)], oidx := sc.oidx + 1 }
            sc2 hov hh
          obtain ⟨hefb, heff⟩ := hef
          dsimp only at hctr hcoidx hcdoc hcsl hcel hcpar hcov hefb heff
          have hov2 : sc2.sameLevelOverlap = false := by rw [hcov]; exact hov
          have hone : ∃ k, sc2.oidx = sc.oidx + k ∧
              sc2.blacked = sc.blacked ++ spansOfMany (respsConsumed o sc.oidx k) ∧
              sc2.found =
                (match sc.currentParent with
                 | none => sc.found ++ newResultsOfMany t (respsConsumed o sc.oidx k)
                 | some i => modifyIdx sc.found i
                     (Result.addChildren (newResultsOfMany t (respsConsumed o sc.oidx k)))) := by
            refine ⟨1, by rw [hcoidx], ?_, ?_⟩
            · rw [hefb]
              have : respsConsumed o sc.oidx 1 = [o sc.oidx] := rfl
              rw [this]
              simp [spansOfMany]
            · rw [heff]
              have : respsConsumed o sc.oidx 1 = [o sc.oidx] := rfl
              rw [this]
              rcases sc.currentParent with _ | i <;>
                simp [newResultsOfMany]
          by_cases h3 : sc2.endLine ≥ sc2.endLimit
          · rw [if_pos h3] at h
            simp only [Except.ok.injEq] at h
            subst h
            obtain ⟨k, ho1, ho2, ho3⟩ := hone
            exact ⟨k, ho1, ho2, ho3, hcpar, hov2⟩
          · rw [if_neg h3] at h
            have hstep : ∀ scnext : Scan,
                scnext.oidx = sc2.oidx → scnext.blacked = sc2.blacked →
                scnext.found = sc2.found →
                scnext.currentParent = sc2.currentParent →
                scnext.sameLevelOverlap = false →
                scanLoop o t fuel scnext = .ok sc' →
                ∃ k, sc'.oidx = sc.oidx + k ∧
                  sc'.blacked = sc.blacked ++ spansOfMany (respsConsumed o sc.oidx k) ∧
                  sc'.found =
                    (match sc.currentParent with
                     | none => sc.found ++ newResultsOfMany t (respsConsumed o sc.oidx k)
                     | some i => modifyIdx sc.found i
                         (Result.addChildren (newResultsOfMany t (respsConsumed o sc.oidx k)))) ∧
                  sc'.currentParent = sc.currentParent ∧
                  sc'.sameLevelOverlap = false := by
              intro scnext hn1 hn2 hn3 hn4 hn5 hrun
              obtain ⟨k2, hk1, hk2, hk3, hk4, hk5⟩ := ih scnext sc' hn5 hrun
              refine ⟨k2 + 1, ?_, ?_, ?_, ?_, hk5⟩
              · rw [hk1, hn1, hcoidx]
                omega
              · rw [hk2, hn2, hefb, hn1, hcoidx]
                have : respsConsumed o sc.oidx (k2 + 1) =
                    o sc.oidx :: respsConsumed o (sc.oidx + 1) k2 :=
                  respsConsumed_succ o sc.oidx k2
                rw [this, spansOfMany_cons, List.append_assoc]
              · rw [hk3, hn4, hcpar, hn3, heff, hn1, hcoidx]
                rw [respsConsumed_succ o sc.oidx k2]
                rcases sc.currentParent with _ | i
                · dsimp only
                  rw [newResultsOfMany_cons, List.append_assoc]
                · dsimp only
                  rw [modifyIdx_comp, newResultsOfMany_cons]
                  refine modifyIdx_congr _ _ (fun x => ?_) _ _
                  rw [addChildren_addChildren]
              · rw [hk4, hn4, hcpar]
            by_cases h4 : ((o sc.oidx).any (fun a => a.aname == "retry_with")) = true
            · rw [if_pos h4] at h
              exact hstep sc2 rfl rfl rfl rfl hov2 h
            · rw [if_neg h4] at h
              exact hstep
                { sc2 with
                  startLine := sc2.endLine + 1
                  endLine := min (sc2.endLine + 1 + 30) sc2.endLimit }
                rfl rfl rfl rfl hov2 h

/-! ## Claims C4 and C5 (amended forms) -/

/-- Claim C4 (amended): after a scan level returns, the blacked-ranges list
is the starting list followed by exactly the `(start_line, end_line)` spans
the consumed oracle responses reported via `found_target`, in dispatch
order — appended verbatim, with no overlap check, so entries may intersect
whenever the oracle reports intersecting spans. -/
theorem c4_amended_blacked_are_reported_spans (o : Oracle) (t : Target)
    (fuel : Nat) (sc sc' : Scan) (hov : sc.sameLevelOverlap = false)
    (hrun : scanLoop o t fuel sc = .ok sc') :
    ∃ k, sc'.oidx = sc.oidx + k ∧
      sc'.blacked = sc.blacked ++ spansOfMany (respsConsumed o sc.oidx k) := by
  obtain ⟨k, h1, h2, _, _, _⟩ := scanLoop_ok_spec o t fuel sc sc' hov hrun
  exact ⟨k, h1, h2⟩

/-- Claim C4 witness: the amended theorem applied to the concrete run whose
single response reports the overlapping spans 1–10 and 5–15. -/
theorem c4_amended_blacked_are_reported_spans_witness :
    ∃ k, (resultScan (scanLoop overlapOracle tFlat 1 (initWindow (scanInit doc30)))).oidx
        = (initWindow (scanInit doc30)).oidx + k ∧
      (resultScan (scanLoop overlapOracle tFlat 1 (initWindow (scanInit doc30)))).blacked
        = (initWindow (scanInit doc30)).blacked ++
            spansOfMany (respsConsumed overlapOracle (initWindow (scanInit doc30)).oidx k) :=
  c4_amended_blacked_are_reported_spans overlapOracle tFlat 1
    (initWindow (scanInit doc30))
    (resultScan (scanLoop overlapOracle tFlat 1 (initWindow (scanInit doc30))))
    rfl rfl

theorem mem_foundFieldsOf {f : Fields} {resp : List OAction}
    (h : f ∈ foundFieldsOf resp) : OAction.found_target f ∈ resp := by
  rw [foundFieldsOf, List.mem_filterMap] at h
  obtain ⟨a, ha, hf⟩ := h
  cases a with
  | found_target g => cases hf; exact ha
  | retry_with s e om => cases hf
  | other n => cases hf

theorem mem_newResultsOfMany {t : Target} {rs : List (List OAction)} {r : Result}
    (h : r ∈ newResultsOfMany t rs) :
    ∃ resp ∈ rs, ∃ f, OAction.found_target f ∈ resp ∧
      r = Result.mk t.id (applyMapFn t f) [] := by
  rw [newResultsOfMany, List.mem_flatten] at h
  obtain ⟨l, hl, hr⟩ := h
  rw [List.mem_map] at hl
  obtain ⟨resp, hresp, rfl⟩ := hl
  rw [newResultsOf, List.mem_map] at hr
  obtain ⟨f, hf, rfl⟩ := hr
  exact ⟨resp, hresp, f, mem_foundFieldsOf hf, rfl⟩

theorem mem_respsConsumed {o : Oracle} {a k : Nat} {resp : List OAction}
    (h : resp ∈ respsConsumed o a k) : ∃ i, resp = o i := by
  rw [respsConsumed, List.mem_map] at h
  obtain ⟨i, _, rfl⟩ := h
  exact ⟨i, rfl⟩

/-- Claim C5 (amended): a child scan runs with its read limits set to the
parent Result's reported span `a … b` (the narrowing the code performs
before recursing), and the child Results it produces record the oracle's
reported fields verbatim; therefore every child Result's span lies within
the parent's span exactly when the oracle's `found_target` reports stay
within those bounds — containment is conditional on the oracle, not
unconditional. -/
theorem c5_amended_containment (o : Oracle) (ct : Target) (fuel : Nat)
    (sc sc' : Scan) (a b : Int)
    (hmap : ct.map_fn = none)
    (hpar : sc.currentParent = none)
    (hfound : sc.found = [])
    (hov : sc.sameLevelOverlap = false)
    (hsl : sc.startLimit = a) (hel : sc.endLimit = b)
    (ho : ∀ i f, OAction.found_target f ∈ o i →
      ∃ x y, List.lookup "start_line" f = some x ∧
        List.lookup "end_line" f = some y ∧
        a ≤ x ∧ x ≤ b ∧ a ≤ y ∧ y ≤ b)
    (hrun : scanLoop o ct fuel sc = .ok sc') :
    ∀ r ∈ sc'.found, ∃ x y,
      List.lookup "start_line" r.rdata = some x ∧
      List.lookup "end_line" r.rdata = some y ∧
      a ≤ x ∧ x ≤ b ∧ a ≤ y ∧ y ≤ b := by
  obtain ⟨k, _, _, hfnd, _, _⟩ := scanLoop_ok_spec o ct fuel sc sc' hov hrun
  rw [hpar] at hfnd
  dsimp only at hfnd
  rw [hfound] at hfnd
  intro r hr
  rw [hfnd, List.nil_append] at hr
  obtain ⟨resp, hresp, f, hfmem, rfl⟩ := mem_newResultsOfMany hr
  obtain ⟨i, rfl⟩ := mem_respsConsumed hresp
  obtain ⟨x, y, hx, hy, hxa, hxb, hya, hyb⟩ := ho i f hfmem
  refine ⟨x, y, ?_, ?_, hxa, hxb, hya, hyb⟩
  · rw [Result.rdata, applyMapFn, hmap]
    exact hx
  · rw [Result.rdata, applyMapFn, hmap]
    exact hy

/-- Claim C5 witness: the amended theorem on a child scan with limits 1–4
and an oracle reporting the in-bounds span 2–3, instantiated at the single
`Result` that run records. -/
theorem c5_amended_containment_witness :
    ∃ x y,
      List.lookup "start_line"
        (Result.mk "t" [("start_line", 2), ("end_line", 3)] []).rdata = some x ∧
      List.lookup "end_line"
        (Result.mk "t" [("start_line", 2), ("end_line", 3)] []).rdata = some y ∧
      (1 : Int) ≤ x ∧ x ≤ 4 ∧ (1 : Int) ≤ y ∧ y ≤ 4 :=
  c5_amended_containment inBoundsOracle tFlat 1 (initWindow (scanInit doc4))
    (resultScan (scanLoop inBoundsOracle tFlat 1 (initWindow (scanInit doc4))))
    1 4 rfl rfl rfl rfl rfl rfl
    (by
      intro i f h
      simp only [inBoundsOracle, List.mem_singleton, OAction.found_target.injEq] at h
      subst h
      exact ⟨2, 3, rfl, rfl, by decide, by decide, by decide, by decide⟩)
    rfl
    (Result.mk "t" [("start_line", 2), ("end_line", 3)] [])
    (List.Mem.head _)

/-! ## The trace only ever grows -/

theorem scanLoop_trace_extends (o : Oracle) (t : Target) :
    ∀ (fuel : Nat) (sc : Scan), ∃ l,
      (resultScan (scanLoop o t fuel sc)).trace = sc.trace ++ l := by
  intro fuel
  induction fuel with
  | zero => intro sc; exact ⟨[], by simp [scanLoop, resultScan]⟩
  | succ fuel ih =>
    intro sc
    rw [scanLoop]
    simp only []
    rcases hadj : (if !sc.sameLevelOverlap && !sc.blacked.isEmpty then
        blackAdjust sc.blacked sc.startLine sc.endLine
      else (sc.startLine, sc.endLine, none)) with ⟨s, e, nmf⟩
    dsimp only
    by_cases h1 : s > e
    · rw [if_pos h1]
      cases hg : (sc.sameLevelOverlap || sc.blacked.isEmpty) with
      | true => exact ⟨[], by simp [resultScan]⟩
      | false =>
        rw [if_neg (show ¬(false = true) by simp)]
        split
        · exact ⟨[], by simp [resultScan]⟩
        · exact ih
            { sc with
              startLine := e + 1
              endLine := min (e + 1 + 30) sc.endLimit }
    · rw [if_neg h1]
      rcases hread : read_file_with_lines sc.doc s e true sc.omitted with re | out
      · exact ⟨[], by simp [resultScan]⟩
      · dsimp only
        rcases hh : handleActions t
            { sc with startLine := s, endLine := e,
                      trace := sc.trace ++ [(s, e)], oidx := sc.oidx + 1 }
            (o sc.oidx) with ⟨ek, esc⟩ | sc2
        · have hc := handleActions_core t (o sc.oidx)
            { sc with startLine := s, endLine := e,
                      trace := sc.trace ++ [(s, e)], oidx := sc.oidx + 1 }
          rw [hh] at hc
          obtain ⟨htr, _⟩ := scanCore_eq hc
          simp only [resultScan] at htr
          exact ⟨[(s, e)], htr⟩
        · have hc := handleActions_core t (o sc.oidx)
            { sc with startLine := s, endLine := e,
                      trace := sc.trace ++ [(s, e)], oidx := sc.oidx + 1 }
          rw [hh] at hc
          obtain ⟨htr, _⟩ := scanCore_eq hc
          simp only [resultScan] at htr
          dsimp only
          split
          · exact ⟨[(s, e)], htr⟩
          · split
            · obtain ⟨l, hl⟩ := ih sc2
              refine ⟨(s, e) :: l, ?_⟩
              rw [hl, htr, List.append_assoc, List.singleton_append]
            · obtain ⟨l, hl⟩ := ih
                { sc2 with
                  startLine := sc2.endLine + 1
                  endLine := min (sc2.endLine + 1 + 30) sc2.endLimit }
              refine ⟨(s, e) :: l, ?_⟩
              rw [hl]
              dsimp only
              rw [htr, List.append_assoc, List.singleton_append]

/-- Claim C3 (amended): at the start of a scan invocation with empty blacked
list, the first window actually read — hence the first presented to the
oracle — is exactly `(max 1 lower_limit, min 30 upper_limit)`, provided that
window is non-empty and inside the document.  The end bound is `min(30, ·)`
independent of the start, so it matches the claimed
`min(start + 29, upper)` only when the start is 1, and for
`max 1 lower > min 30 upper` no window is read at all. -/
theorem c3_amended_first_window (o : Oracle) (t : Target) (fuel : Nat)
    (sc : Scan)
    (hb : sc.blacked = []) (htr : sc.trace = [])
    (hwin : max 1 sc.startLimit ≤ min 30 sc.endLimit)
    (hlen : min 30 sc.endLimit ≤ (sc.doc.length : Int))
    (hf : 1 ≤ fuel) :
    (resultScan (scanLoop o t fuel (initWindow sc))).trace.head? =
      some (max 1 sc.startLimit, min 30 sc.endLimit) := by
  rcases fuel with _ | fuel
  · omega
  rw [scanLoop]
  simp only [initWindow, hb, List.isEmpty_nil, Bool.not_true, Bool.and_false,
    Bool.false_eq_true, if_false]
  rw [if_neg (not_lt.mpr hwin)]
  obtain ⟨out, hout⟩ := read_ok sc.doc (max 1 sc.startLimit) (min 30 sc.endLimit)
    true (le_max_left 1 sc.startLimit) hlen
  rw [hout]
  dsimp only
  rcases hh : handleActions t
      { sc with startLine := max 1 sc.startLimit, endLine := min 30 sc.endLimit,
                omitted := "", blacked := [],
                trace := sc.trace ++ [(max 1 sc.startLimit, min 30 sc.endLimit)],
                oidx := sc.oidx + 1 }
      (o sc.oidx) with ⟨ek, esc⟩ | sc2
  · have hc := handleActions_core t (o sc.oidx)
      { sc with startLine := max 1 sc.startLimit, endLine := min 30 sc.endLimit,
                omitted := "", blacked := [],
                trace := sc.trace ++ [(max 1 sc.startLimit, min 30 sc.endLimit)],
                oidx := sc.oidx + 1 }
    rw [hh] at hc
    obtain ⟨htr2, _⟩ := scanCore_eq hc
    simp only [resultScan] at htr2
    rw [htr] at htr2
    simp only [List.nil_append] at htr2
    show esc.trace.head? = some (max 1 sc.startLimit, min 30 sc.endLimit)
    rw [htr2]
    rfl
  · have hc := handleActions_core t (o sc.oidx)
      { sc with startLine := max 1 sc.startLimit, endLine := min 30 sc.endLimit,
                omitted := "", blacked := [],
                trace := sc.trace ++ [(max 1 sc.startLimit, min 30 sc.endLimit)],
                oidx := sc.oidx + 1 }
    rw [hh] at hc
    obtain ⟨htr2, _⟩ := scanCore_eq hc
    simp only [resultScan] at htr2
    rw [htr] at htr2
    simp only [List.nil_append] at htr2
    dsimp only
    split
    · show sc2.trace.head? = some (max 1 sc.startLimit, min 30 sc.endLimit)
      rw [htr2]
      rfl
    · split
      · obtain ⟨l, hl⟩ := scanLoop_trace_extends o t fuel sc2
        rw [hl, htr2]
        rfl
      · obtain ⟨l, hl⟩ := scanLoop_trace_extends o t fuel
          { sc2 with
            startLine := sc2.endLine + 1
            endLine := min (sc2.endLine + 1 + 30) sc2.endLimit }
        rw [hl]
        dsimp only
        rw [htr2]
        rfl

/-- Claim C3 witness: a fresh top-level scan of the 4-line document reads
`(max 1 1, min 30 4) = (1, 4)` first. -/
theorem c3_amended_first_window_witness :
    (resultScan (scanLoop emptyOracle tFlat 1 (initWindow (scanInit doc4)))).trace.head? =
      some (max 1 (scanInit doc4).startLimit, min 30 (scanInit doc4).endLimit) :=
  c3_amended_first_window emptyOracle tFlat 1 (scanInit doc4) rfl rfl
    (by decide) (by decide) (by decide)

/-! ## Claim C6: the retry_with window override -/

theorem blackAdjust_id : ∀ (bl : List (Int × Int)) (s e : Int),
    (∀ p ∈ bl, ¬(s ≤ p.1 ∧ p.1 ≤ e) ∧ ¬(s ≤ p.2 ∧ p.2 ≤ e)) →
    blackAdjust bl s e = (s, e, none) := by
  intro bl
  induction bl with
  | nil => intro s e h; rfl
  | cons p rest ih =>
    intro s e h
    obtain ⟨x, y⟩ := p
    have h1 := h (x, y) (by simp)
    rw [blackAdjust, if_neg h1.1, if_neg h1.2]
    exact ih s e (fun q hq => h q (by simp [hq]))

theorem spansOf_append (l1 l2 : List OAction) :
    spansOf (l1 ++ l2) = spansOf l1 ++ spansOf l2 := by
  simp [spansOf, List.filterMap_append]

theorem handleActions_append (t : Target) :
    ∀ (l1 l2 : List OAction) (sc : Scan),
      handleActions t sc (l1 ++ l2) =
        (match handleActions t sc l1 with
         | .ok sc1 => handleActions t sc1 l2
         | .error err => .error err) := by
  intro l1
  induction l1 with
  | nil => intro l2 sc; rfl
  | cons a rest ih =>
    intro l2 sc
    cases a with
    | found_target f => rw [List.cons_append, handleActions, handleActions, ih]
    | retry_with s e om => rw [List.cons_append, handleActions, handleActions, ih]
    | other n => rfl

theorem handleActions_found_only (t : Target) :
    ∀ (l : List OAction) (sc : Scan),
      (∀ a ∈ l, ∃ f, a = OAction.found_target f) →
      ∃ sc', handleActions t sc l = .ok sc' ∧ windowOf sc' = windowOf sc := by
  intro l
  induction l with
  | nil => intro sc _; exact ⟨sc, rfl, rfl⟩
  | cons a rest ih =>
    intro sc h
    obtain ⟨f, rfl⟩ := h a (by simp)
    obtain ⟨sc', h1, h2⟩ := ih (applyFound t f sc) (fun x hx => h x (by simp [hx]))
    rw [handleActions]
    exact ⟨sc', h1, h2.trans (applyFound_core t f sc).2⟩

theorem windowOf_eq {a b : Scan} (h : windowOf a = windowOf b) :
    a.startLine = b.startLine ∧ a.endLine = b.endLine ∧ a.omitted = b.omitted := by
  simpa [windowOf, Prod.ext_iff] using h

/-- One loop pass whose blacked adjustment leaves the window unchanged and
whose read succeeds: the window goes on the trace, the response is handled,
and the loop breaks, retries, or advances. -/
theorem scanLoop_read_step (o : Oracle) (t : Target) (fuel : Nat) (sc : Scan)
    (hadj : (if (!sc.sameLevelOverlap && !sc.blacked.isEmpty) = true then
        blackAdjust sc.blacked sc.startLine sc.endLine
      else (sc.startLine, sc.endLine, none)) = (sc.startLine, sc.endLine, none))
    (hse : ¬ sc.startLine > sc.endLine)
    (hread : ∃ out,
      read_file_with_lines sc.doc sc.startLine sc.endLine true sc.omitted = .ok out) :
    scanLoop o t (fuel + 1) sc =
      (match handleActions t (readScan sc) (o sc.oidx) with
       | .error err => .error err
       | .ok sc2 =>
         if sc2.endLine ≥ sc2.endLimit then .ok sc2
         else if (o sc.oidx).any (fun a => a.aname == "retry_with") then
           scanLoop o t fuel sc2
         else scanLoop o t fuel
           { sc2 with startLine := sc2.endLine + 1,
                      endLine := min (sc2.endLine + 1 + 30) sc2.endLimit }) := by
  obtain ⟨out, hout⟩ := hread
  rw [scanLoop, hadj]
  dsimp only
  rw [if_neg hse, hout]
  rfl

/-- With one unit of fuel, such a pass reads exactly one more window — the
current one — whatever the oracle answers. -/
theorem scanLoop_one_trace (o : Oracle) (t : Target) (sc : Scan)
    (hadj : (if (!sc.sameLevelOverlap && !sc.blacked.isEmpty) = true then
        blackAdjust sc.blacked sc.startLine sc.endLine
      else (sc.startLine, sc.endLine, none)) = (sc.startLine, sc.endLine, none))
    (hse : ¬ sc.startLine > sc.endLine)
    (hread : ∃ out,
      read_file_with_lines sc.doc sc.startLine sc.endLine true sc.omitted = .ok out) :
    (resultScan (scanLoop o t 1 sc)).trace =
      sc.trace ++ [(sc.startLine, sc.endLine)] := by
  rw [scanLoop_read_step o t 0 sc hadj hse hread]
  rcases hh : handleActions t (readScan sc) (o sc.oidx) with ⟨ek, esc⟩ | sc2
  · have hc := handleActions_core t (o sc.oidx) (readScan sc)
    rw [hh] at hc
    simp only [resultScan] at hc
    obtain ⟨htr2, _⟩ := scanCore_eq hc
    exact htr2
  · have hc := handleActions_core t (o sc.oidx) (readScan sc)
    rw [hh] at hc
    simp only [resultScan] at hc
    obtain ⟨htr2, _⟩ := scanCore_eq hc
    dsimp only
    split
    · exact htr2
    · split
      · exact htr2
      · exact htr2

/-- Claim C6: with the document extending beyond line 12 and no blacked
endpoint inside lines 5–12, a first oracle response containing the turn's
single `retry_with(start=5, end=12)` (any other actions being
`found_target`s) makes the second window presented to the oracle exactly
lines 5–12, bypassing the normal `_next_more` advancement. -/
theorem c6_retry_with_overrides_window (doc : List String) (t : Target)
    (o : Oracle) (xs ys : List OAction)
    (hdoc : 13 ≤ doc.length)
    (h0 : o 0 = xs ++ OAction.retry_with 5 12 "" :: ys)
    (hxs : ∀ a ∈ xs, ∃ f, a = OAction.found_target f)
    (hys : ∀ a ∈ ys, ∃ f, a = OAction.found_target f)
    (hbl : ∀ p ∈ spansOf (xs ++ ys),
      ¬((5:Int) ≤ p.1 ∧ p.1 ≤ 12) ∧ ¬((5:Int) ≤ p.2 ∧ p.2 ≤ 12)) :
    (resultScan (scanLoop o t 2 (initWindow (scanInit doc)))).trace =
      [(1, min 30 (doc.length : Int)), (5, 12)] := by
  have hlen1 : (1 : Int) ≤ min 30 (doc.length : Int) := by
    rw [le_min_iff]
    constructor
    · norm_num
    · omega
  rw [scanLoop_read_step o t 1 (initWindow (scanInit doc)) rfl
    (not_lt.mpr hlen1)
    (read_ok doc 1 (min 30 (doc.length : Int)) true le_rfl
      (min_le_right 30 (doc.length : Int)))]
  rw [show (initWindow (scanInit doc)).oidx = 0 from rfl, h0]
  rw [handleActions_append t xs (OAction.retry_with 5 12 "" :: ys)
    (readScan (initWindow (scanInit doc)))]
  obtain ⟨sca, hA, hAwin⟩ :=
    handleActions_found_only t xs (readScan (initWindow (scanInit doc))) hxs
  rw [hA]
  dsimp only
  rw [handleActions]
  obtain ⟨scc, hC, hCwin⟩ := handleActions_found_only t ys
    { sca with startLine := 5, endLine := 12, omitted := "" } hys
  rw [hC]
  dsimp only
  have hstartC : scc.startLine = 5 := (windowOf_eq hCwin).1
  have hendC : scc.endLine = 12 := (windowOf_eq hCwin).2.1
  have homitC : scc.omitted = "" := (windowOf_eq hCwin).2.2
  have hcoreA : scanCore sca = scanCore (readScan (initWindow (scanInit doc))) := by
    have hc := handleActions_core t xs (readScan (initWindow (scanInit doc)))
    rw [hA] at hc
    simpa only [resultScan] using hc
  have hcoreC : scanCore scc = scanCore (readScan (initWindow (scanInit doc))) := by
    have hc := handleActions_core t ys
      { sca with startLine := 5, endLine := 12, omitted := "" }
    rw [hC] at hc
    simp only [resultScan] at hc
    exact hc.trans hcoreA
  have htrC : scc.trace = [(1, min 30 (doc.length : Int))] := (scanCore_eq hcoreC).1
  have hdocC : scc.doc = doc := (scanCore_eq hcoreC).2.2.1
  have helC : scc.endLimit = (doc.length : Int) := (scanCore_eq hcoreC).2.2.2.2.1
  have hovC : scc.sameLevelOverlap = false := (scanCore_eq hcoreC).2.2.2.2.2.2
  have hovA : sca.sameLevelOverlap = false := (scanCore_eq hcoreA).2.2.2.2.2.2
  have hbA : sca.blacked = spansOf xs := by
    have := handleActions_ok_effect t xs (readScan (initWindow (scanInit doc))) sca rfl hA
    exact this.1
  have hbC : scc.blacked = spansOf xs ++ spansOf ys := by
    have := handleActions_ok_effect t ys
      { sca with startLine := 5, endLine := 12, omitted := "" } scc hovA hC
    rw [this.1]
    dsimp only
    rw [hbA]
  rw [if_neg (by rw [hendC, helC]; omega)]
  rw [if_pos (List.any_eq_true.mpr
    ⟨OAction.retry_with 5 12 "",
     List.mem_append.mpr (Or.inr (List.mem_cons_self _ _)), rfl⟩)]
  have hadjC : (if (!scc.sameLevelOverlap && !scc.blacked.isEmpty) = true then
      blackAdjust scc.blacked scc.startLine scc.endLine
    else (scc.startLine, scc.endLine, none)) = (scc.startLine, scc.endLine, none) := by
    split
    · refine blackAdjust_id scc.blacked scc.startLine scc.endLine ?_
      intro p hp
      rw [hstartC, hendC]
      rw [hbC, ← spansOf_append] at hp
      exact hbl p hp
    · rfl
  have hreadC : ∃ out,
      read_file_with_lines scc.doc scc.startLine scc.endLine true scc.omitted
        = .ok out := by
    rw [hdocC, hstartC, hendC, homitC]
    exact read_ok doc 5 12 true (by norm_num) (by omega)
  rw [scanLoop_one_trace o t scc hadjC (by rw [hstartC, hendC]; norm_num) hreadC]
  rw [htrC, hstartC, hendC]
  rfl

/-- Claim C6 witness: a 13-line document with the single-retry oracle — the
second window read is exactly 5–12. -/
theorem c6_retry_with_overrides_window_witness :
    (resultScan (scanLoop retryOracle tFlat 2 (initWindow (scanInit doc13)))).trace =
      [(1, min 30 (doc13.length : Int)), (5, 12)] :=
  c6_retry_with_overrides_window doc13 tFlat retryOracle [] []
    (by decide) rfl
    (by intro a ha; exact absurd ha (List.not_mem_nil a))
    (by intro a ha; exact absurd ha (List.not_mem_nil a))
    (by intro p hp; simp [spansOf] at hp)

/-! ## Claim C2: windows of an undisturbed scan -/

theorem windowsFrom_spec (n : Int) :
    ∀ (fuel : Nat) (s e : Int), s ≤ e → e ≤ n → (n - e).toNat + 1 ≤ fuel →
      (windowsFrom n fuel s e).head? = some (s, e) ∧
      List.Chain' (fun w w2 => w2.1 = w.2 + 1) (windowsFrom n fuel s e) ∧
      (∀ m : Int, (s ≤ m ∧ m ≤ n) ↔
        ∃ w ∈ windowsFrom n fuel s e, w.1 ≤ m ∧ m ≤ w.2) ∧
      List.Pairwise (fun w w2 => w.2 < w2.1) (windowsFrom n fuel s e) ∧
      (∀ w ∈ windowsFrom n fuel s e, s ≤ w.1 ∧ w.1 ≤ w.2 ∧ w.2 ≤ n) ∧
      (windowsFrom n fuel s e).length = 1 + ((n - e).toNat + 30) / 31 := by
  intro fuel
  induction fuel with
  | zero => intro s e _ _ hf; omega
  | succ fuel ih =>
    intro s e hse hen hf
    by_cases hend : e ≥ n
    · rw [windowsFrom, if_pos hend]
      refine ⟨rfl, by simp, ?_, by simp, ?_, ?_⟩
      · intro m
        constructor
        · intro hm
          exact ⟨(s, e), by simp, hm.1, by omega⟩
        · rintro ⟨w, hw, h1, h2⟩
          simp only [List.mem_singleton] at hw
          subst hw
          exact ⟨h1, le_trans h2 hen⟩
      · intro w hw
        simp only [List.mem_singleton] at hw
        subst hw
        exact ⟨le_rfl, hse, hen⟩
      · have h0 : (n - e).toNat = 0 := by omega
        simp only [List.length_cons, List.length_nil]
        omega
    · rw [windowsFrom, if_neg hend]
      have hmin1 : e + 1 ≤ min (e + 1 + 30) n := le_min (by omega) (by omega)
      have hmin2 : min (e + 1 + 30) n ≤ n := min_le_right _ _
      obtain ⟨ihh, ihc, ihcov, ihp, ihb, ihl⟩ :=
        ih (e + 1) (min (e + 1 + 30) n) hmin1 hmin2 (by omega)
      refine ⟨rfl, ?_, ?_, ?_, ?_, ?_⟩
      · refine List.chain'_cons'.mpr ⟨?_, ihc⟩
        intro b hb
        rw [ihh] at hb
        simp only [Option.mem_def, Option.some.injEq] at hb
        subst hb
        rfl
      · intro m
        constructor
        · rintro ⟨hm1, hm2⟩
          by_cases hme : m ≤ e
          · exact ⟨(s, e), by simp, hm1, hme⟩
          · obtain ⟨w, hw, hw1, hw2⟩ := (ihcov m).mp ⟨by omega, hm2⟩
            exact ⟨w, by simp [hw], hw1, hw2⟩
        · rintro ⟨w, hw, hw1, hw2⟩
          rcases List.mem_cons.mp hw with rfl | hw2'
          · exact ⟨hw1, le_trans hw2 hen⟩
          · obtain ⟨hws, hw12, hwn⟩ := ihb w hw2'
            have hws2 : e + 1 ≤ w.1 := hws
            exact ⟨by omega, le_trans hw2 hwn⟩
      · refine List.pairwise_cons.mpr ⟨?_, ihp⟩
        intro w hw
        have hws : e + 1 ≤ w.1 := (ihb w hw).1
        show (s, e).2 < w.1
        omega
      · intro w hw
        rcases List.mem_cons.mp hw with rfl | hw2'
        · exact ⟨le_rfl, hse, hen⟩
        · obtain ⟨hws, hw12, hwn⟩ := ihb w hw2'
          have hws2 : e + 1 ≤ w.1 := hws
          exact ⟨by omega, hw12, hwn⟩
      · rw [List.length_cons, ihl]
        have hd1 : 1 ≤ (n - e).toNat := by omega
        rcases le_or_lt n (e + 1 + 30) with hc | hc
        · rw [min_eq_right hc]
          have h0 : (n - n).toNat = 0 := by omega
          rw [h0]
          have hsplit : (n - e).toNat + 30 = ((n - e).toNat - 1) + 31 := by omega
          rw [hsplit, Nat.add_div_right _ (by norm_num)]
          have hz : ((n - e).toNat - 1) / 31 = 0 := Nat.div_eq_of_lt (by omega)
          omega
        · rw [min_eq_left (by omega)]
          have h31 : (n - (e + 1 + 30)).toNat = (n - e).toNat - 31 := by omega
          rw [h31]
          have he1 : (n - e).toNat - 31 + 30 = (n - e).toNat - 1 := by omega
          rw [he1]
          have hsplit : (n - e).toNat + 30 = ((n - e).toNat - 1) + 31 := by omega
          rw [hsplit, Nat.add_div_right _ (by norm_num)]
          omega

theorem scanLoop_empty_run (t : Target) :
    ∀ (fuel : Nat) (sc : Scan),
      sc.blacked = [] → sc.omitted = "" → sc.sameLevelOverlap = false →
      sc.endLimit = (sc.doc.length : Int) →
      1 ≤ sc.startLine → sc.startLine ≤ sc.endLine →
      sc.endLine ≤ (sc.doc.length : Int) →
      (sc.endLimit - sc.endLine).toNat + 1 ≤ fuel →
      ∃ sc', scanLoop emptyOracle t fuel sc = .ok sc' ∧
        sc'.trace = sc.trace ++ windowsFrom sc.endLimit fuel sc.startLine sc.endLine ∧
        sc'.oidx = sc.oidx + (windowsFrom sc.endLimit fuel sc.startLine sc.endLine).length := by
  intro fuel
  induction fuel with
  | zero => intro sc _ _ _ _ _ _ _ hf; omega
  | succ fuel ih =>
    intro sc hb homit hov hel h1 h2 h3 hf
    have hadj : (if (!sc.sameLevelOverlap && !sc.blacked.isEmpty) = true then
        blackAdjust sc.blacked sc.startLine sc.endLine
      else (sc.startLine, sc.endLine, none)) = (sc.startLine, sc.endLine, none) := by
      rw [hov, hb]
      rfl
    have hread : ∃ out,
        read_file_with_lines sc.doc sc.startLine sc.endLine true sc.omitted
          = .ok out := by
      rw [homit]
      exact read_ok sc.doc _ _ true h1 h3
    rw [scanLoop_read_step emptyOracle t fuel sc hadj (not_lt.mpr h2) hread]
    rw [show handleActions t (readScan sc) (emptyOracle sc.oidx)
      = .ok (readScan sc) from rfl]
    dsimp only
    rw [show (readScan sc).endLine = sc.endLine from rfl,
      show (readScan sc).endLimit = sc.endLimit from rfl]
    by_cases hend : sc.endLine ≥ sc.endLimit
    · rw [if_pos hend]
      refine ⟨readScan sc, rfl, ?_, ?_⟩
      · rw [windowsFrom, if_pos hend]
        rfl
      · rw [windowsFrom, if_pos hend]
        rfl
    · rw [if_neg hend]
      rw [if_neg (show ¬((emptyOracle sc.oidx).any
        (fun a => a.aname == "retry_with") = true) from by simp [emptyOracle])]
      have hmin1 : sc.endLine + 1 ≤ min (sc.endLine + 1 + 30) sc.endLimit :=
        le_min (by omega) (by omega)
      have hmin2 : min (sc.endLine + 1 + 30) sc.endLimit ≤ sc.endLimit :=
        min_le_right _ _
      obtain ⟨sc', hrun, htr, hoidx⟩ := ih
        { readScan sc with
          startLine := sc.endLine + 1
          endLine := min (sc.endLine + 1 + 30) sc.endLimit }
        hb homit hov hel
        (by show (1 : Int) ≤ sc.endLine + 1; omega)
        hmin1
        (by show min (sc.endLine + 1 + 30) sc.endLimit ≤ (sc.doc.length : Int)
            rw [← hel]; exact hmin2)
        (by show (sc.endLimit - min (sc.endLine + 1 + 30) sc.endLimit).toNat + 1 ≤ fuel
            omega)
      refine ⟨sc', hrun, ?_, ?_⟩
      · rw [htr, windowsFrom, if_neg hend]
        show (sc.trace ++ [(sc.startLine, sc.endLine)]) ++
            windowsFrom sc.endLimit fuel (sc.endLine + 1)
              (min (sc.endLine + 1 + 30) sc.endLimit) = _
        rw [List.append_assoc, List.singleton_append]
      · rw [hoidx, windowsFrom, if_neg hend]
        show sc.oidx + 1 + (windowsFrom sc.endLimit fuel (sc.endLine + 1)
          (min (sc.endLine + 1 + 30) sc.endLimit)).length = _
        rw [List.length_cons]
        omega

/-- Claim C2 (amended): an undisturbed top-level scan (lower limit 1, no
pre-existing blacked ranges, oracle returning no actions) reads windows that
cover `[1, upper]` exactly once - consecutive windows adjacent, pairwise
disjoint - starting with `(1, min 30 upper)`; each later advancement sets
`start = prev_end + 1` and `end = min (start + 30) upper` (a 31-line jump),
so the loop makes `1 + upper / 31` oracle calls, not `ceil(upper / 30)`. -/
theorem c2_amended_window_coverage (doc : List String) (t : Target)
    (h : 1 ≤ doc.length) :
    ∃ sc, scanLoop emptyOracle t (doc.length + 1) (initWindow (scanInit doc))
        = .ok sc ∧
      sc.oidx = 1 + doc.length / 31 ∧
      sc.trace.length = sc.oidx ∧
      sc.trace.head? = some (1, min 30 (doc.length : Int)) ∧
      List.Chain' (fun w w2 => w2.1 = w.2 + 1) sc.trace ∧
      (∀ m : Int, (1 ≤ m ∧ m ≤ (doc.length : Int)) ↔
        ∃ w ∈ sc.trace, w.1 ≤ m ∧ m ≤ w.2) ∧
      sc.trace.Pairwise (fun w w2 => w.2 < w2.1) := by
  have hmin1 : (1 : Int) ≤ min 30 (doc.length : Int) := le_min (by norm_num) (by omega)
  have hminn : min 30 (doc.length : Int) ≤ (doc.length : Int) := min_le_right _ _
  obtain ⟨sc, hrun, htr, hoidx⟩ := scanLoop_empty_run t (doc.length + 1)
    (initWindow (scanInit doc)) rfl rfl rfl rfl le_rfl hmin1 hminn
    (by show ((doc.length : Int) - min 30 (doc.length : Int)).toNat + 1 ≤ doc.length + 1
        omega)
  have htr2 : sc.trace =
      windowsFrom (doc.length : Int) (doc.length + 1) 1 (min 30 (doc.length : Int)) := htr
  have hoidx2 : sc.oidx =
      (windowsFrom (doc.length : Int) (doc.length + 1) 1
        (min 30 (doc.length : Int))).length := by
    rw [hoidx]
    show 0 + _ = _
    exact Nat.zero_add _
  obtain ⟨wh, wc, wcov, wp, wb, wl⟩ := windowsFrom_spec (doc.length : Int)
    (doc.length + 1) 1 (min 30 (doc.length : Int)) hmin1 hminn (by omega)
  refine ⟨sc, hrun, ?_, ?_, ?_, ?_, ?_, ?_⟩
  · rw [hoidx2, wl]
    rcases le_or_lt doc.length 30 with hc | hc
    · rw [min_eq_right (by omega : (doc.length : Int) ≤ 30)]
      rw [show ((doc.length : Int) - (doc.length : Int)).toNat = 0 from by omega]
      rw [show doc.length / 31 = 0 from Nat.div_eq_of_lt (by omega)]
    · rw [min_eq_left (by omega : (30 : Int) ≤ (doc.length : Int))]
      rw [show ((doc.length : Int) - 30).toNat = doc.length - 30 from by omega]
      rw [show doc.length - 30 + 30 = doc.length from by omega]
  · rw [htr2, hoidx2]
  · rw [htr2]
    exact wh
  · rw [htr2]
    exact wc
  · intro m
    rw [htr2]
    exact wcov m
  · rw [htr2]
    exact wp

/-- Claim C2 witness: the amended coverage theorem at a 35-line document. -/
theorem c2_amended_window_coverage_witness :
    ∃ sc, scanLoop emptyOracle tFlat (doc35.length + 1) (initWindow (scanInit doc35))
        = .ok sc ∧
      sc.oidx = 1 + doc35.length / 31 ∧
      sc.trace.length = sc.oidx ∧
      sc.trace.head? = some (1, min 30 (doc35.length : Int)) ∧
      List.Chain' (fun w w2 => w2.1 = w.2 + 1) sc.trace ∧
      (∀ m : Int, (1 ≤ m ∧ m ≤ (doc35.length : Int)) ↔
        ∃ w ∈ sc.trace, w.1 ≤ m ∧ m ≤ w.2) ∧
      sc.trace.Pairwise (fun w w2 => w.2 < w2.1) :=
  c2_amended_window_coverage doc35 tFlat (by decide)

end CGA
